import Mathlib

/-!
# Verification of the ninja manifest parser (src/manifest_parser.cc)

Shallow embedding of the manifest-parsing and graph-construction core.
The tokenizer, disk access and version comparison are external
collaborators (spec section 1); statements therefore arrive here already
tokenized, as structured records, and the file-reading collaborator is an
explicit world value.  Everything else is translated directly from
src/manifest_parser.cc.
-/

/-- One fragment of a deferred string template: literal text or a
variable reference (`EvalString` tokens, spec section 3). -/
inductive Frag where
  | lit (s : String)
  | var (n : String)
deriving DecidableEq

/-- A deferred string template (`EvalString`): ordered fragments. -/
abbrev EvalString := List Frag

/-- First-match lookup in an association list (models `map::find`,
with insertion modelled as prepending so later writes shadow). -/
def listLookup {α : Type} (l : List (String × α)) (k : String) : Option α :=
  match l with
  | [] => none
  | (k1, v) :: rest => if k1 = k then some v else listLookup rest k

/-- A `Rule`: name plus bindings restricted to reserved names
(`Rule` in rule.h; bindings kept as unevaluated templates). -/
structure RuleData where
  name : String
  bindings : List (String × EvalString)
deriving DecidableEq

/-- A scope (`BindingEnv`): evaluated variable bindings, rules, the
absolute directory bound to a chdir subninja scope, and an optional
parent.  Bindings are prepended so that a later `AddBinding` shadows an
earlier one, matching map assignment. -/
inductive Env where
  | root (binds : List (String × String)) (rules : List RuleData)
         (dir : String)
  | child (binds : List (String × String)) (rules : List RuleData)
          (dir : String) (parent : Env)
deriving DecidableEq

def Env.binds : Env → List (String × String)
  | .root b _ _ => b
  | .child b _ _ _ => b

def Env.rules : Env → List RuleData
  | .root _ r _ => r
  | .child _ r _ _ => r

def Env.dir : Env → String
  | .root _ _ d => d
  | .child _ _ d _ => d

def Env.parent : Env → Option Env
  | .root _ _ _ => none
  | .child _ _ _ p => some p

/-- `BindingEnv::LookupVariable`: local map first, then the parent
chain; an undefined variable evaluates to the empty string. -/
def Env.lookupVar : Env → String → String
  | .root b _ _, n =>
    match listLookup b n with
    | some v => v
    | none => ""
  | .child b _ _ p, n =>
    match listLookup b n with
    | some v => v
    | none => p.lookupVar n

/-- `BindingEnv::AddBinding`. -/
def Env.addBinding : Env → String → String → Env
  | .root b r d, k, v => .root ((k, v) :: b) r d
  | .child b r d p, k, v => .child ((k, v) :: b) r d p

/-- `BindingEnv::AddRule`. -/
def Env.addRule : Env → RuleData → Env
  | .root b r d, rl => .root b (rl :: r) d
  | .child b r d p, rl => .child b (rl :: r) d p

/-- `BindingEnv::LookupRuleCurrentScope`: local rules only. -/
def Env.lookupRuleCurrentScope (e : Env) (n : String) : Option RuleData :=
  e.rules.find? (fun r => r.name = n)

/-- `BindingEnv::LookupRule`: local scope, then the parent chain. -/
def Env.lookupRule : Env → String → Option RuleData
  | .root _ r _, n =>
    match r.find? (fun rl => rl.name = n) with
    | some rl => some rl
    | none => none
  | .child _ r _ p, n =>
    match r.find? (fun rl => rl.name = n) with
    | some rl => some rl
    | none => p.lookupRule n

/-- `EvalString::Evaluate`: substitute each variable reference using the
scope and concatenate. -/
def evalStr (env : Env) (es : EvalString) : String :=
  es.foldl (fun acc f =>
    acc ++ match f with
           | .lit s => s
           | .var n => env.lookupVar n) ""

/-- Rule binding lookup, `map::operator[]` semantics: absent keys read
as the empty template. -/
def ruleBinding (r : RuleData) (k : String) : EvalString :=
  match listLookup r.bindings k with
  | some v => v
  | none => []

/-- Modelled from the spec: `Rule::IsReservedBinding` (rule.cc is not
under src/); the reserved rule-binding names of spec section 6. -/
def isReservedBinding (k : String) : Bool :=
  k = "command" || k = "description" || k = "depfile" || k = "deps" ||
  k = "dyndep" || k = "generator" || k = "msvc_deps_prefix" ||
  k = "pool" || k = "restat" || k = "rspfile" || k = "rspfile_content"

/-- A graph node (`Node`): canonical path, producing edge (by index into
the edge list), and the pending-dyndep flag. -/
structure NodeData where
  path : String
  inEdge : Option Nat
  dyndepPending : Bool
deriving DecidableEq

/-- A build edge (`Edge`): rule, resolved pool name (empty means the
default pool), ordered outputs and inputs as canonical paths, the
implicit/order-only counts, and the dyndep node. -/
structure EdgeData where
  id : Nat
  ruleName : String
  poolName : String
  outputs : List String
  implicitOuts : Nat
  inputs : List String
  implicitDeps : Nat
  orderOnlyDeps : Nat
  dyndepNode : Option String
deriving DecidableEq

/-- The graph store (`State`): interned node table, edge list, pools. -/
structure State where
  nodes : List NodeData
  edges : List EdgeData
  pools : List (String × Int)
deriving DecidableEq

def lookupNode (st : State) (p : String) : Option NodeData :=
  st.nodes.find? (fun n => n.path = p)

/-- `State::GetNode`: intern a canonical path, reusing an existing
node. -/
def getNode (st : State) (p : String) : State :=
  if (lookupNode st p).isSome then st
  else { st with nodes := st.nodes ++ [⟨p, none, false⟩] }

def nodeProducer (st : State) (p : String) : Option Nat :=
  (lookupNode st p).bind (fun n => n.inEdge)

/-- Whether the node for a path already has a producing edge
(`node->in_edge()` after `GetNode`). -/
def hasProducer (st : State) (p : String) : Bool :=
  (nodeProducer st p).isSome

/-- `Node::set_in_edge` for the node of path `p`. -/
def setProducer (st : State) (p : String) (eid : Nat) : State :=
  { st with nodes := st.nodes.map (fun n =>
      if n.path = p then { n with inEdge := some eid } else n) }

/-- `Node::set_dyndep_pending(true)` for the node of path `p`. -/
def setDyndepPending (st : State) (p : String) : State :=
  { st with nodes := st.nodes.map (fun n =>
      if n.path = p then { n with dyndepPending := true } else n) }

def nodePending (st : State) (p : String) : Bool :=
  ((lookupNode st p).map (fun n => n.dyndepPending)).getD false

/-- `State::LookupPool`. -/
def lookupPool (st : State) (n : String) : Option Int :=
  (st.pools.find? (fun q => q.1 = n)).map (fun q => q.2)

def appendEdge (st : State) (e : EdgeData) : State :=
  { st with edges := st.edges ++ [e] }

/-- Leading digits of a character list as a number (helper for `atol`):
stops at the first non-digit. -/
def digitsVal : List Char → Int → Int
  | c :: cs, acc =>
    if c.isDigit then digitsVal cs (acc * 10 + (c.toNat - 48 : Nat))
    else acc
  | [], acc => acc

def skipWs : List Char → List Char
  | c :: cs =>
    if c = ' ' || c = '\t' || c = '\n' || c = '\r' then skipWs cs
    else c :: cs
  | [] => []

/-- C `atol`: skip whitespace, optional sign, then the leading run of
digits; a string with no leading integer converts to 0. -/
def atol (s : String) : Int :=
  match skipWs s.data with
  | '-' :: cs => - digitsVal cs 0
  | '+' :: cs => digitsVal cs 0
  | cs => digitsVal cs 0

/-- The value `atol` actually returns on the target platform: a C
`long`; glibc implements `atol` via `strtol`, which saturates at the
64-bit long range. -/
def atolLong (s : String) : Int :=
  max (-(2 ^ 63)) (min (2 ^ 63 - 1) (atol s))

/-- Two's-complement narrowing of a C `long` into a 32-bit `int`:
wraps modulo 2^32. -/
def wrap32 (n : Int) : Int :=
  (n + 2 ^ 31) % 2 ^ 32 - 2 ^ 31

/-- Line 116, `int depth = atol(depth_string.c_str())`: the long
returned by `atol` is narrowed into the 32-bit `int depth`. -/
def poolDepth (s : String) : Int :=
  wrap32 (atolLong s)

/-- Result of a statement handler: the C++ bool return, the `err` out
parameter, and the mutated value (scope or store). -/
structure Res (α : Type) where
  ok : Bool
  err : String
  val : α
deriving DecidableEq

/-- The indented `depth = value` loop of `ManifestParser::ParsePool`
(lines 108-122): each line must be keyed `depth`; its evaluated value is
converted with `atol`, narrowed into the 32-bit `int depth` (line 116)
and immediately checked non-negative; a later line overwrites an
earlier one. -/
def parsePoolLoop (env : Env) (depth : Int) :
    List (String × EvalString) → Except String Int
  | [] => .ok depth
  | (key, value) :: rest =>
    if key = "depth" then
      let d := poolDepth (evalStr env value)
      if d < 0 then .error "invalid pool depth"
      else parsePoolLoop env d rest
    else .error ("unexpected variable " ++ key)

/-- `ManifestParser::ParsePool`.  The pool name and the newline after it
come from the tokenizer; `letsErr` holds the lexical error that ended
the indented-binding loop, if any (a failing `ParseLet`). -/
def ParsePool (st : State) (env : Env) (name : String)
    (lets : List (String × EvalString)) (letsErr : Option String) :
    Res State :=
  if (lookupPool st name).isSome then
    ⟨false, "duplicate pool " ++ name, st⟩
  else
    match parsePoolLoop env (-1) lets with
    | .error e => ⟨false, e, st⟩
    | .ok depth =>
      match letsErr with
      | some e => ⟨false, e, st⟩
      | none =>
        if depth < 0 then ⟨false, "expected depth = line", st⟩
        else ⟨true, "", { st with pools := st.pools ++ [(name, depth)] }⟩

/-- The indented-binding loop of `ManifestParser::ParseRule`
(lines 145-158): reserved keys are added to the rule, anything else is a
hard error.  `Rule::AddBinding` is map assignment, modelled by
prepending. -/
def parseRuleLoop (rule : RuleData) :
    List (String × EvalString) → Except String RuleData
  | [] => .ok rule
  | (key, value) :: rest =>
    if isReservedBinding key then
      parseRuleLoop { rule with bindings := (key, value) :: rule.bindings } rest
    else .error ("unexpected variable " ++ key)

/-- `ManifestParser::ParseRule`: duplicate check in the current scope
only, the binding loop, the rspfile parity check, the command check,
and only then `AddRule`.  On failure the scope is returned unchanged. -/
def ParseRule (env : Env) (name : String)
    (lets : List (String × EvalString)) (letsErr : Option String) :
    Res Env :=
  if (env.lookupRuleCurrentScope name).isSome then
    ⟨false, "duplicate rule " ++ name, env⟩
  else
    match parseRuleLoop ⟨name, []⟩ lets with
    | .error e => ⟨false, e, env⟩
    | .ok rule =>
      match letsErr with
      | some e => ⟨false, e, env⟩
      | none =>
        if (ruleBinding rule "rspfile").isEmpty
            != (ruleBinding rule "rspfile_content").isEmpty then
          ⟨false, "rspfile and rspfile_content need to be both specified", env⟩
        else if (ruleBinding rule "command").isEmpty then
          ⟨false, "expected command = line", env⟩
        else ⟨true, "", env.addRule rule⟩

/-- One path-list section of a build statement as delivered by the
tokenizer: the paths successfully read, and, when `term` is set, the
lexical error that ended the section instead of an empty path. -/
structure PathSec where
  paths : List EvalString
  term : Option String
deriving DecidableEq

/-- A tokenized build statement: the six path sections with their pipe
markers, the rule name, the trailing structural tokens, and the indented
edge-local bindings. -/
structure EdgeScript where
  outSec : PathSec
  outPipe : Bool
  ioutSec : PathSec
  colonOk : Bool
  ruleOk : Bool
  ruleName : String
  inSec : PathSec
  inPipe : Bool
  iinSec : PathSec
  ooPipe : Bool
  ooSec : PathSec
  newlineOk : Bool
  lets : List (String × EvalString)
  letsErr : Option String
deriving DecidableEq

/-- The duplicate-output-edge policy (`dupe_edge_action_`). -/
inductive DupeAction where
  | actError
  | actWarn
deriving DecidableEq

/-- The self-referential-edge policy (`phony_cycle_action_`); the spec
names the two values warn-and-strip and allow-as-is. -/
inductive PhonyAction where
  | actWarn
  | actAllow
deriving DecidableEq

structure Options where
  dupe : DupeAction
  phony : PhonyAction
deriving DecidableEq

/-- Result of `ParseEdge` and of the statement loop: C++ bool return,
`err` out parameter, warnings printed, and the mutated store. -/
structure ERes where
  ok : Bool
  err : String
  warnings : List String
  state : State
deriving DecidableEq

/-- Modelled from the spec: the effective absolute directory of a scope
(the chdir machinery of `BindingEnv` is not under src/) — the nearest
enclosing scope with a directory set, spec sections 3 and 4.2. -/
def Env.effDir : Env → String
  | .root _ _ d => d
  | .child _ _ d p => if d = "" then p.effDir else d

/-- Modelled from the spec: `BindingEnv::ApplyChdir` (not under src/)
qualifies a scope-relative path with the scope's absolute directory. -/
def applyChdir (env : Env) (p : String) : String :=
  env.effDir ++ p

/-- Modelled from the spec: `Edge::GetBinding` (graph.cc is not under
src/) — an edge-scope lookup that falls back to the rule's binding
(evaluated against the edge scope) and then to the parent chain. -/
def getBinding (env : Env) (rule : RuleData) (k : String) : String :=
  match listLookup env.binds k with
  | some v => v
  | none =>
    let rb := ruleBinding rule k
    if rb.isEmpty then
      match env.parent with
      | some p => p.lookupVar k
      | none => ""
    else evalStr env rb

/-- Modelled from the spec: `CanonicalizePath` (util.cc is not under
src/).  The claims quantify over already-canonical paths, so the
normalization itself is modelled as the identity (which is idempotent);
the empty path is the error case. -/
def canonicalizePath (p : String) : Except String String :=
  if p = "" then .error "empty path" else .ok p

def dupMsg (p : String) : String :=
  "multiple rules generate " ++ p ++ " [-w dupbuild=err]"

def dupWarnMsg (p : String) : String :=
  "multiple rules generate " ++ p ++
  ". builds involving this target will not be correct; continuing anyway [-w dupbuild=warn]"

structure OutLoopRes where
  ok : Bool
  err : String
  warnings : List String
  state : State
  outsAcc : List String
  iouts : Nat
deriving DecidableEq

/-- The output loop of `ManifestParser::ParseEdge` (lines 319-342):
canonicalize each output, `State::AddOut` it (fails when the node
already has a producing edge); a duplicate is a hard error under the
error policy, and under the warn policy the output is dropped, with the
implicit-output counter decremented when the remaining length shows the
dropped output was implicit (`e - i <= implicit_outs`). -/
def addOutLoop (dupe : DupeAction) (quiet : Bool) (eid : Nat) (st : State)
    (acc : List String) (iouts : Nat) (warns : List String) :
    List String → OutLoopRes
  | [] => ⟨true, "", warns, st, acc, iouts⟩
  | p :: rest =>
    match canonicalizePath p with
    | .error e => ⟨false, e, warns, st, acc, iouts⟩
    | .ok cp =>
      let st1 := getNode st cp
      if hasProducer st1 cp then
        match dupe with
        | .actError => ⟨false, dupMsg cp, warns, st1, acc, iouts⟩
        | .actWarn =>
          let warns1 := if quiet then warns else warns ++ [dupWarnMsg cp]
          let iouts1 := if rest.length + 1 ≤ iouts then iouts - 1 else iouts
          addOutLoop dupe quiet eid st1 acc iouts1 warns1 rest
      else
        addOutLoop dupe quiet eid (setProducer st1 cp eid) (acc ++ [cp])
          iouts warns rest

structure InLoopRes where
  ok : Bool
  err : String
  state : State
  acc : List String
deriving DecidableEq

/-- The input loop of `ManifestParser::ParseEdge` (lines 352-360):
canonicalize and `State::AddIn` each input in file order. -/
def addInLoop (st : State) (acc : List String) : List String → InLoopRes
  | [] => ⟨true, "", st, acc⟩
  | p :: rest =>
    match canonicalizePath p with
    | .error e => ⟨false, e, st, acc⟩
    | .ok cp => addInLoop (getNode st cp) (acc ++ [cp]) rest

/-- Modelled from the spec: `Edge::maybe_phonycycle_diagnostic`
(graph.cc is not under src/).  Spec section 4.3 item 12: the filter
applies to a single-output edge whose sole output also appears among its
inputs, and it does not special-case by rule identity. -/
def maybePhonycycleDiagnostic (e : EdgeData) : Bool :=
  e.outputs.length = 1

def phonyWarnMsg (o : String) : String :=
  "phony target " ++ o ++ " names itself as an input; ignoring [-w phonycycle=warn]"

/-- The compatibility filter of `ManifestParser::ParseEdge`
(lines 364-381): under the warn policy, remove every occurrence of the
sole output from the inputs (`std::remove`) and warn unless quiet. -/
def phonyCycleFilter (phony : PhonyAction) (quiet : Bool) (e : EdgeData)
    (warns : List String) : EdgeData × List String :=
  if phony = .actWarn && maybePhonycycleDiagnostic e then
    match e.outputs with
    | o :: _ =>
      if e.inputs.contains o then
        ({ e with inputs := e.inputs.filter (fun q => q ≠ o) },
         warns ++ (if quiet then [] else [phonyWarnMsg o]))
      else (e, warns)
    | [] => (e, warns)
  else (e, warns)

structure DRes where
  ok : Bool
  err : String
  state : State
  edge : EdgeData
deriving DecidableEq

/-- The dyndep block of `ManifestParser::ParseEdge` (lines 391-407):
a non-empty dyndep binding is chdir-qualified, canonicalized, interned,
marked dyndep-pending, stored on the edge, and must already be one of
the declared inputs. -/
def dyndepPhase (st : State) (env : Env) (rule : RuleData) (e : EdgeData) :
    DRes :=
  let dyndep := getBinding env rule "dyndep"
  if dyndep = "" then ⟨true, "", st, e⟩
  else
    match canonicalizePath (applyChdir env dyndep) with
    | .error err => ⟨false, err, st, e⟩
    | .ok d =>
      let st1 := setDyndepPending (getNode st d) d
      let e1 := { e with dyndepNode := some d }
      if e1.inputs.contains d then ⟨true, "", st1, e1⟩
      else ⟨false, "dyndep " ++ d ++ " is not an input", st1, e1⟩

/-- The tail of `ManifestParser::ParseEdge` (lines 292-409): newline,
edge-local bindings (a child scope is allocated only when at least one
exists, and each value is evaluated against the enclosing scope), edge
construction, pool resolution, the output loop, the discard-if-no-
outputs check, the input loop, the phony-cycle filter, the multi-output
deps check, and the dyndep block.  `AddEdge` appends the edge to the
store; the discard branch pops it again, modelled here by appending at
every other exit after the edge exists. -/
def parseEdgeTail (opts : Options) (quiet : Bool) (st : State) (env : Env)
    (sc : EdgeScript) (rule : RuleData) (outs ins : List EvalString)
    (iouts implicit orderOnly : Nat) : ERes :=
  if !sc.newlineOk then ⟨false, "expected newline", [], st⟩
  else
    let env2 := if sc.lets.isEmpty then env
      else sc.lets.foldl (fun e kv => e.addBinding kv.1 (evalStr env kv.2))
        (Env.child [] [] "" env)
    match sc.letsErr with
    | some e => ⟨false, e, [], st⟩
    | none =>
      let eid := st.edges.length
      let poolName := getBinding env2 rule "pool"
      if poolName ≠ "" && (lookupPool st poolName).isNone then
        ⟨false, "unknown pool name " ++ poolName, [],
         appendEdge st ⟨eid, rule.name, "", [], 0, [], 0, 0, none⟩⟩
      else
        let edge0 : EdgeData := ⟨eid, rule.name, poolName, [], 0, [], 0, 0, none⟩
        let op := addOutLoop opts.dupe quiet eid st []
          iouts [] (outs.map (evalStr env2))
        if !op.ok then
          ⟨false, op.err, op.warnings,
           appendEdge op.state { edge0 with outputs := op.outsAcc }⟩
        else if op.outsAcc.isEmpty then
          -- all outputs already produced elsewhere: discard, not an error
          ⟨true, "", op.warnings, op.state⟩
        else
          let edge1 := { edge0 with outputs := op.outsAcc,
                                    implicitOuts := op.iouts }
          let ip := addInLoop op.state [] (ins.map (evalStr env2))
          if !ip.ok then
            ⟨false, ip.err, op.warnings,
             appendEdge ip.state { edge1 with inputs := ip.acc }⟩
          else
            let edge2 := { edge1 with inputs := ip.acc,
                                      implicitDeps := implicit,
                                      orderOnlyDeps := orderOnly }
            let fw := phonyCycleFilter opts.phony quiet edge2 op.warnings
            let depsType := getBinding env2 rule "deps"
            if depsType ≠ "" && fw.1.outputs.length > 1 then
              ⟨false,
               "multiple outputs are not (yet?) supported by depslog; bring this up on the mailing list if it affects you",
               fw.2, appendEdge ip.state fw.1⟩
            else
              let dp := dyndepPhase ip.state env2 rule fw.1
              ⟨dp.ok, dp.err, fw.2, appendEdge dp.state dp.edge⟩

/-- Lines 254-290 of `ManifestParser::ParseEdge`: explicit inputs, then
implicit inputs after a pipe, then order-only inputs after a double
pipe.  A lexical error among the explicit or order-only inputs returns
false, but among the implicit inputs the code has `return err;` — a
pointer converted to bool, i.e. it returns true with the error set. -/
def parseEdgeIns (opts : Options) (quiet : Bool) (st : State) (env : Env)
    (sc : EdgeScript) (rule : RuleData) (outs : List EvalString)
    (iouts : Nat) : ERes :=
  match sc.inSec.term with
  | some e => ⟨false, e, [], st⟩
  | none =>
    let step2 := fun (ins : List EvalString) (implicit : Nat) =>
      if sc.ooPipe then
        match sc.ooSec.term with
        | some e => ⟨false, e, [], st⟩
        | none => parseEdgeTail opts quiet st env sc rule outs
            (ins ++ sc.ooSec.paths) iouts implicit sc.ooSec.paths.length
      else parseEdgeTail opts quiet st env sc rule outs ins iouts implicit 0
    if sc.inPipe then
      match sc.iinSec.term with
      | some e => ⟨true, e, [], st⟩  -- faithful to the buggy return err
      | none => step2 (sc.inSec.paths ++ sc.iinSec.paths) sc.iinSec.paths.length
    else step2 sc.inSec.paths 0

/-- Lines 240-252 of `ManifestParser::ParseEdge`: the combined output
list must be non-empty, then the colon, the rule name, and the
parent-chain rule lookup. -/
def parseEdgeAfterOuts (opts : Options) (quiet : Bool) (st : State)
    (env : Env) (sc : EdgeScript) (outs : List EvalString) (iouts : Nat) :
    ERes :=
  if outs.isEmpty then ⟨false, "expected path", [], st⟩
  else if !sc.colonOk then ⟨false, "expected colon", [], st⟩
  else if !sc.ruleOk then ⟨false, "expected build command name", [], st⟩
  else
    match env.lookupRule sc.ruleName with
    | none => ⟨false, "unknown build rule " ++ sc.ruleName, [], st⟩
    | some rule => parseEdgeIns opts quiet st env sc rule outs iouts

/-- `ManifestParser::ParseEdge` (lines 210-410), starting with the
explicit outputs and the implicit outputs after a pipe.  As with the
implicit inputs, a lexical error among the implicit outputs hits
`return err;` and yields true with the error set. -/
def ParseEdge (opts : Options) (quiet : Bool) (st : State) (env : Env)
    (sc : EdgeScript) : ERes :=
  match sc.outSec.term with
  | some e => ⟨false, e, [], st⟩
  | none =>
    if sc.outPipe then
      match sc.ioutSec.term with
      | some e => ⟨true, e, [], st⟩  -- faithful to the buggy return err
      | none => parseEdgeAfterOuts opts quiet st env sc
          (sc.outSec.paths ++ sc.ioutSec.paths) sc.ioutSec.paths.length
    else parseEdgeAfterOuts opts quiet st env sc sc.outSec.paths 0

/-- A tokenized top-level statement for the dispatch loop of
`ManifestParser::Parse`.  The default and include statements are
handled by their own models below and are not needed by the loop-level
claims. -/
inductive MStmt where
  | pool (name : String) (lets : List (String × EvalString))
         (letsErr : Option String)
  | rulestmt (name : String) (lets : List (String × EvalString))
             (letsErr : Option String)
  | binding (name : String) (value : EvalString)
  | build (sc : EdgeScript)
  | lexErrorTok (msg : String)
  | badToken (tok : String)
deriving DecidableEq

inductive LoopRes where
  | ok (st : State) (env : Env) (warns : List String)
  | fail (st : State) (env : Env) (err : String) (warns : List String)
  | versionFatal (st : State) (env : Env) (msg : String) (warns : List String)
deriving DecidableEq

/-- The statement dispatch loop of `ManifestParser::Parse`
(lines 38-90).  A plain binding is evaluated immediately against the
current scope; when its name is `ninja_required_version` the
version-compatibility check runs before the binding is stored and
before any later statement is read.  `CheckNinjaVersion` is modelled
from the spec (version.cc is not under src/): it fails the process at
once when `compat` rejects the evaluated value. -/
def parseLoop (opts : Options) (quiet : Bool) (compat : String → Bool)
    (st : State) (env : Env) (warns : List String) :
    List MStmt → LoopRes
  | [] => .ok st env warns
  | stmt :: rest =>
    match stmt with
    | .pool name lets letsErr =>
      let r := ParsePool st env name lets letsErr
      if r.ok then parseLoop opts quiet compat r.val env warns rest
      else .fail r.val env r.err warns
    | .rulestmt name lets letsErr =>
      let r := ParseRule env name lets letsErr
      if r.ok then parseLoop opts quiet compat st r.val warns rest
      else .fail st r.val r.err warns
    | .binding name value =>
      let v := evalStr env value
      if name = "ninja_required_version" && !compat v then
        .versionFatal st env ("ninja version incompatible: " ++ v) warns
      else parseLoop opts quiet compat st (env.addBinding name v) warns rest
    | .build sc =>
      let r := ParseEdge opts quiet st env sc
      if r.ok then
        parseLoop opts quiet compat r.state env (warns ++ r.warnings) rest
      else .fail r.state env r.err (warns ++ r.warnings)
    | .lexErrorTok msg => .fail st env msg warns
    | .badToken tok => .fail st env ("unexpected " ++ tok) warns

/-- The file-reading collaborator for working-directory switches: the
current directory, which directory changes succeed, and whether
`Getcwd` succeeds. -/
structure DiskWorld where
  cwd : String
  chdirOk : String → Bool
  getcwdOk : Bool

/-- `FileReader::Getcwd`. -/
def frGetcwd (w : DiskWorld) : Except String String :=
  if w.getcwdOk then .ok w.cwd else .error "getcwd failed"

/-- `FileReader::Chdir`. -/
def frChdir (w : DiskWorld) (p : String) : Except String DiskWorld :=
  if w.chdirOk p then .ok { w with cwd := p } else .error "chdir failed"

/-- Outcome of the indented-binding loop of
`ManifestParser::ParseFileInclude` (lines 427-465): `early` is the
direct `return false` of a Getcwd/Chdir failure (reachable only before
any chdir succeeded); `done` carries the `ok`, `err`, `has_chdir`,
`prev_cwd` and `rel_path` locals together with the world and the trace
of attempted `Chdir` targets. -/
inductive LetsOut where
  | early (err : String) (w : DiskWorld) (trace : List String)
  | done (ok : Bool) (err : String) (hasChdir : Bool)
         (prevCwd relPath : String) (w : DiskWorld) (trace : List String)

def includeLets (env : Env) (newScope : Bool) (w : DiskWorld)
    (trace : List String) (hasChdir : Bool) (prevCwd relPath : String) :
    List (String × EvalString) → LetsOut
  | [] => .done true "" hasChdir prevCwd relPath w trace
  | (key, value) :: rest =>
    if key ≠ "chdir" then
      .done false ("illegal key " ++ key ++ " (only chdir is supported)")
        hasChdir prevCwd relPath w trace
    else if !newScope then
      .done false "invalid use of chdir in include line"
        hasChdir prevCwd relPath w trace
    else if hasChdir then
      .done false "duplicate chdir in subninja" hasChdir prevCwd relPath w trace
    else
      let rel := evalStr env value
      match frGetcwd w with
      | .error e => .early ("Getcwd: " ++ e) w trace
      | .ok got =>
        match frChdir w rel with
        | .error e => .early ("Chdir to " ++ rel ++ ": " ++ e) w (trace ++ [rel])
        | .ok w1 =>
          includeLets env newScope w1 (trace ++ [rel]) true got (rel ++ "/") rest

/-- Result of `ParseFileInclude`: the bool return and `err`, the final
world and chdir trace, plus the recorded `has_chdir`/`prev_cwd` locals
and the pre-restore outcome (`preOk`/`preErr`), kept for
specification. -/
structure IncludeRes where
  ok : Bool
  err : String
  world : DiskWorld
  hasChdir : Bool
  prevCwd : String
  chdirCalls : List String
  preOk : Bool
  preErr : String

/-- The tail of `ParseFileInclude` after the binding loop: fold in the
lexical-error flag and the nested parse outcome, then restore the saved
directory whenever a chdir happened (lines 493-509). -/
def includeFinish (letsErr : Option String) (subOk : Bool)
    (subErr : String) : LetsOut → IncludeRes
  | .early e w1 t1 => ⟨false, e, w1, false, "", t1, false, e⟩
  | .done ok0 err0 hasChdir prev _rel w1 t1 =>
    let okA := ok0 && letsErr.isNone
    let errA := if ok0 then (match letsErr with | some e => e | none => err0)
                else err0
    let okB := okA && subOk
    let errB := if okA && !subOk then subErr else errA
    if hasChdir then
      match frChdir w1 prev with
      | .ok w2 => ⟨okB, errB, w2, true, prev, t1 ++ [prev], okB, errB⟩
      | .error e2 =>
        if okB then
          ⟨false, "restore cwd = " ++ prev ++ ": " ++ e2, w1, true, prev,
           t1 ++ [prev], okB, errB⟩
        else ⟨false, errB, w1, true, prev, t1 ++ [prev], okB, errB⟩
    else ⟨okB, errB, w1, false, prev, t1, okB, errB⟩

/-- `ManifestParser::ParseFileInclude` (lines 412-509), the
working-directory bracket: the indented-binding loop may switch the
directory; the nested parse (whose scope construction touches only the
graph store, not the file reader) is abstracted as its outcome
`subOk`/`subErr`; afterwards, whenever a chdir succeeded, the previous
directory is restored, and a restore failure is reported only when no
earlier error exists.  `letsErr` is a lexical error ending the binding
loop (`ok = false; break`). -/
def ParseFileInclude (env : Env) (newScope : Bool) (w : DiskWorld)
    (lets : List (String × EvalString)) (letsErr : Option String)
    (subOk : Bool) (subErr : String) : IncludeRes :=
  includeFinish letsErr subOk subErr
    (includeLets env newScope w [] false "" "" lets)

def LetsOut.world : LetsOut → DiskWorld
  | .early _ w _ => w
  | .done _ _ _ _ _ w _ => w

theorem includeLets_preserves_chdirOk (env : Env) (newScope : Bool)
    (lets : List (String × EvalString)) :
    ∀ (w : DiskWorld) (trace : List String) (hasChdir : Bool)
      (prevCwd relPath : String),
      (includeLets env newScope w trace hasChdir prevCwd relPath lets).world.chdirOk
        = w.chdirOk := by
  induction lets with
  | nil => intro w trace hasChdir prevCwd relPath; rfl
  | cons kv rest ih =>
    intro w trace hasChdir prevCwd relPath
    obtain ⟨key, value⟩ := kv
    unfold includeLets frGetcwd frChdir
    repeat' split
    all_goals try rfl
    all_goals try simp [LetsOut.world]
    all_goals (
      by_cases hcd : w.chdirOk (evalStr env value) = true
      · simp only [hcd, reduceIte]
        exact ih _ _ _ _ _
      · simp [hcd, LetsOut.world])

/-- C7: once an inclusion's chdir has successfully switched the working
directory, the previous directory is restored (the restore is the final
Chdir call, and when it succeeds the world's directory is back to the
saved one) after the nested parse regardless of its outcome, and a
failing restore is reported only when no earlier error exists. -/
theorem c7_include_restores_cwd (env : Env) (newScope : Bool)
    (w : DiskWorld) (lets : List (String × EvalString))
    (letsErr : Option String) (subOk : Bool) (subErr : String)
    (r : IncludeRes)
    (hr : r = ParseFileInclude env newScope w lets letsErr subOk subErr)
    (h : r.hasChdir = true) :
    r.chdirCalls.getLast? = some r.prevCwd
    ∧ (w.chdirOk r.prevCwd = true →
        r.world.cwd = r.prevCwd ∧ r.ok = r.preOk ∧ r.err = r.preErr)
    ∧ (w.chdirOk r.prevCwd = false →
        r.ok = false
        ∧ (r.preOk = false → r.err = r.preErr)
        ∧ (r.preOk = true →
            r.err = "restore cwd = " ++ r.prevCwd ++ ": chdir failed")) := by
  have hck := includeLets_preserves_chdirOk env newScope lets w [] false "" ""
  subst hr
  unfold ParseFileInclude at h ⊢
  cases hx : includeLets env newScope w [] false "" "" lets with
  | early e w1 t1 =>
    rw [hx] at h
    simp [includeFinish] at h
  | done ok0 err0 hc prev rel w1 t1 =>
    rw [hx] at h hck
    simp only [LetsOut.world] at hck
    cases hc with
    | false => simp [includeFinish] at h
    | true =>
      simp only [includeFinish, frChdir, hck]
      by_cases hcd : w.chdirOk prev
      · simp [hcd, List.getLast?_concat]
      · have hcd2 : w.chdirOk prev = false := by simpa using hcd
        by_cases hok : ((ok0 && letsErr.isNone) && subOk) = true
        · simp [hcd2, hok, List.getLast?_concat, String.append_assoc]
        · have hok2 : ((ok0 && letsErr.isNone) && subOk) = false := by
            simpa using hok
          simp [hcd2, hok2, List.getLast?_concat]

/-- C7 witness: a subninja with a successful `chdir = sub` whose nested
parse fails; the restore to the saved directory still runs. -/
theorem c7_include_restores_cwd_witness :
    (ParseFileInclude (.root [] [] "") true ⟨"/top", fun _ => true, true⟩
        [("chdir", [Frag.lit "sub"])] none false "sub failed").chdirCalls.getLast?
      = some (ParseFileInclude (.root [] [] "") true ⟨"/top", fun _ => true, true⟩
        [("chdir", [Frag.lit "sub"])] none false "sub failed").prevCwd
    ∧ ((⟨"/top", fun _ => true, true⟩ : DiskWorld).chdirOk
        (ParseFileInclude (.root [] [] "") true ⟨"/top", fun _ => true, true⟩
          [("chdir", [Frag.lit "sub"])] none false "sub failed").prevCwd = true →
        (ParseFileInclude (.root [] [] "") true ⟨"/top", fun _ => true, true⟩
          [("chdir", [Frag.lit "sub"])] none false "sub failed").world.cwd
          = (ParseFileInclude (.root [] [] "") true ⟨"/top", fun _ => true, true⟩
            [("chdir", [Frag.lit "sub"])] none false "sub failed").prevCwd
        ∧ (ParseFileInclude (.root [] [] "") true ⟨"/top", fun _ => true, true⟩
            [("chdir", [Frag.lit "sub"])] none false "sub failed").ok
          = (ParseFileInclude (.root [] [] "") true ⟨"/top", fun _ => true, true⟩
            [("chdir", [Frag.lit "sub"])] none false "sub failed").preOk
        ∧ (ParseFileInclude (.root [] [] "") true ⟨"/top", fun _ => true, true⟩
            [("chdir", [Frag.lit "sub"])] none false "sub failed").err
          = (ParseFileInclude (.root [] [] "") true ⟨"/top", fun _ => true, true⟩
            [("chdir", [Frag.lit "sub"])] none false "sub failed").preErr)
    ∧ ((⟨"/top", fun _ => true, true⟩ : DiskWorld).chdirOk
        (ParseFileInclude (.root [] [] "") true ⟨"/top", fun _ => true, true⟩
          [("chdir", [Frag.lit "sub"])] none false "sub failed").prevCwd = false →
        (ParseFileInclude (.root [] [] "") true ⟨"/top", fun _ => true, true⟩
          [("chdir", [Frag.lit "sub"])] none false "sub failed").ok = false
        ∧ ((ParseFileInclude (.root [] [] "") true ⟨"/top", fun _ => true, true⟩
            [("chdir", [Frag.lit "sub"])] none false "sub failed").preOk = false →
            (ParseFileInclude (.root [] [] "") true ⟨"/top", fun _ => true, true⟩
              [("chdir", [Frag.lit "sub"])] none false "sub failed").err
            = (ParseFileInclude (.root [] [] "") true ⟨"/top", fun _ => true, true⟩
              [("chdir", [Frag.lit "sub"])] none false "sub failed").preErr)
        ∧ ((ParseFileInclude (.root [] [] "") true ⟨"/top", fun _ => true, true⟩
            [("chdir", [Frag.lit "sub"])] none false "sub failed").preOk = true →
            (ParseFileInclude (.root [] [] "") true ⟨"/top", fun _ => true, true⟩
              [("chdir", [Frag.lit "sub"])] none false "sub failed").err
            = "restore cwd = "
              ++ (ParseFileInclude (.root [] [] "") true ⟨"/top", fun _ => true, true⟩
                [("chdir", [Frag.lit "sub"])] none false "sub failed").prevCwd
              ++ ": chdir failed")) :=
  c7_include_restores_cwd (.root [] [] "") true ⟨"/top", fun _ => true, true⟩
    [("chdir", [Frag.lit "sub"])] none false "sub failed"
    (ParseFileInclude (.root [] [] "") true ⟨"/top", fun _ => true, true⟩
      [("chdir", [Frag.lit "sub"])] none false "sub failed") rfl (by rfl)

theorem parseRuleLoop_ok_reserved :
    ∀ (lets : List (String × EvalString)) (rule rd : RuleData),
      parseRuleLoop rule lets = .ok rd →
      ∀ kv ∈ lets, isReservedBinding kv.1 = true := by
  intro lets
  induction lets with
  | nil => intro rule rd _ kv hkv; simp at hkv
  | cons kv0 rest ih =>
    intro rule rd h kv hkv
    obtain ⟨key, value⟩ := kv0
    unfold parseRuleLoop at h
    by_cases hres : isReservedBinding key
    · rw [if_pos hres] at h
      cases hkv with
      | head => exact hres
      | tail _ hkv => exact ih _ _ h kv hkv
    · rw [if_neg hres] at h
      simp at h

/-- C9: rule registration is atomic — when `ParseRule` fails for any
reason the scope's rule map is unchanged, and when it succeeds every
validity check (unique name in the current scope, readable bindings,
reserved binding names only, rspfile parity, a command) held and
exactly the parsed rule was added. -/
theorem c9_rule_registration_atomic (env : Env) (name : String)
    (lets : List (String × EvalString)) (letsErr : Option String)
    (r : Res Env) (hr : r = ParseRule env name lets letsErr) :
    (r.ok = false → r.val = env)
    ∧ (r.ok = true →
        env.lookupRuleCurrentScope name = none
        ∧ letsErr = none
        ∧ (∀ kv ∈ lets, isReservedBinding kv.1 = true)
        ∧ ∃ rd, parseRuleLoop ⟨name, []⟩ lets = .ok rd
            ∧ ((ruleBinding rd "rspfile").isEmpty
                != (ruleBinding rd "rspfile_content").isEmpty) = false
            ∧ (ruleBinding rd "command").isEmpty = false
            ∧ r.val = env.addRule rd) := by
  subst hr
  unfold ParseRule
  by_cases hdup : (env.lookupRuleCurrentScope name).isSome
  · simp [hdup]
  · have hdup2 : env.lookupRuleCurrentScope name = none :=
      Option.not_isSome_iff_eq_none.mp hdup
    simp only [hdup, Bool.false_eq_true, reduceIte]
    cases hpl : parseRuleLoop ⟨name, []⟩ lets with
    | error e => simp
    | ok rd =>
      cases letsErr with
      | some e => simp
      | none =>
        by_cases hpar : ((ruleBinding rd "rspfile").isEmpty
            != (ruleBinding rd "rspfile_content").isEmpty) = true
        · simp [hpar]
        · have hpar2 : ((ruleBinding rd "rspfile").isEmpty
              != (ruleBinding rd "rspfile_content").isEmpty) = false := by
            simpa using hpar
          by_cases hcmd : (ruleBinding rd "command").isEmpty = true
          · simp [hpar2, hcmd]
          · have hcmd2 : (ruleBinding rd "command").isEmpty = false := by
              simpa using hcmd
            simp only [hpar2, hcmd2, Bool.false_eq_true, reduceIte]
            refine ⟨fun hko => by simp at hko, fun _ => ?_⟩
            exact ⟨by simp [hdup2], by simp,
                   parseRuleLoop_ok_reserved lets _ _ hpl,
                   rd, by simp, hpar2, hcmd2, rfl⟩

/-- C9 witness: a rule statement with no `command =` line fails and
leaves the scope unchanged. -/
theorem c9_rule_registration_atomic_witness :
    ((ParseRule (.root [] [] "") "r" [] none).ok = false →
      (ParseRule (.root [] [] "") "r" [] none).val = .root [] [] "")
    ∧ ((ParseRule (.root [] [] "") "r" [] none).ok = true →
        Env.lookupRuleCurrentScope (.root [] [] "") "r" = none
        ∧ (none : Option String) = none
        ∧ (∀ kv ∈ ([] : List (String × EvalString)),
            isReservedBinding kv.1 = true)
        ∧ ∃ rd, parseRuleLoop ⟨"r", []⟩ [] = .ok rd
            ∧ ((ruleBinding rd "rspfile").isEmpty
                != (ruleBinding rd "rspfile_content").isEmpty) = false
            ∧ (ruleBinding rd "command").isEmpty = false
            ∧ (ParseRule (.root [] [] "") "r" [] none).val
              = Env.addRule (.root [] [] "") rd) :=
  c9_rule_registration_atomic (.root [] [] "") "r" [] none
    (ParseRule (.root [] [] "") "r" [] none) rfl

/-- C5 counterexample: the depth value `abc` is not an integer at all,
yet the pool statement succeeds, registering the pool with depth 0
(`atol` yields 0), where the claim demands a parse error. -/
theorem c5_pool_depth_counterexample :
    (ParsePool ⟨[], [], []⟩ (.root [] [] "") "p"
        [("depth", [Frag.lit "abc"])] none).ok = true
    ∧ (ParsePool ⟨[], [], []⟩ (.root [] [] "") "p"
        [("depth", [Frag.lit "abc"])] none).val.pools = [("p", 0)] := by
  constructor <;> rfl

/-- C5 (amended): the evaluated depth value is converted with C `atol`
and narrowed into the 32-bit `int depth` — a string with no leading
integer yields 0 and is accepted, and a large value wraps modulo 2^32
(3000000000 comes out negative and is rejected) — and only a negative
narrowed result is an error; a pool statement without any `depth`
binding is an error. -/
theorem c5_pool_depth_atol (st : State) (env : Env) (name : String)
    (h : (lookupPool st name).isSome = false) :
    (∀ v : EvalString, poolDepth (evalStr env v) < 0 →
        (ParsePool st env name [("depth", v)] none).ok = false
        ∧ (ParsePool st env name [("depth", v)] none).err
          = "invalid pool depth")
    ∧ (∀ v : EvalString, 0 ≤ poolDepth (evalStr env v) →
        (ParsePool st env name [("depth", v)] none).ok = true
        ∧ (ParsePool st env name [("depth", v)] none).val.pools
          = st.pools ++ [(name, poolDepth (evalStr env v))])
    ∧ ((ParsePool st env name [] none).ok = false
        ∧ (ParsePool st env name [] none).err = "expected depth = line") := by
  refine ⟨fun v hv => ?_, fun v hv => ?_, ?_⟩
  · unfold ParsePool parsePoolLoop
    simp [h, hv]
  · unfold ParsePool parsePoolLoop
    have hnn : ¬ poolDepth (evalStr env v) < 0 := by omega
    simp [h, hnn, parsePoolLoop]
  · unfold ParsePool parsePoolLoop
    simp [h]

/-- C5 witness for the amended claim. -/
theorem c5_pool_depth_atol_witness :
    ((∀ v : EvalString, poolDepth (evalStr (.root [] [] "") v) < 0 →
        (ParsePool ⟨[], [], []⟩ (.root [] [] "") "q" [("depth", v)] none).ok = false
        ∧ (ParsePool ⟨[], [], []⟩ (.root [] [] "") "q" [("depth", v)] none).err
          = "invalid pool depth")
    ∧ (∀ v : EvalString, 0 ≤ poolDepth (evalStr (.root [] [] "") v) →
        (ParsePool ⟨[], [], []⟩ (.root [] [] "") "q" [("depth", v)] none).ok = true
        ∧ (ParsePool ⟨[], [], []⟩ (.root [] [] "") "q" [("depth", v)] none).val.pools
          = ([] : List (String × Int)) ++ [("q", poolDepth (evalStr (.root [] [] "") v))])
    ∧ ((ParsePool ⟨[], [], []⟩ (.root [] [] "") "q" [] none).ok = false
        ∧ (ParsePool ⟨[], [], []⟩ (.root [] [] "") "q" [] none).err
          = "expected depth = line")) :=
  c5_pool_depth_atol ⟨[], [], []⟩ (.root [] [] "") "q" (by decide)

theorem getLastD_mem_cons {α : Type} (l : List α) (a : α) :
    l.getLastD a ∈ a :: l := by
  induction l generalizing a with
  | nil => simp [List.getLastD]
  | cons b l ih =>
    rw [List.getLastD_cons]
    have h2 := ih b
    rcases List.mem_cons.mp h2 with hx | hx
    · rw [hx]; exact List.mem_cons_of_mem a (List.mem_cons_self b l)
    · exact List.mem_cons_of_mem a (List.mem_cons_of_mem b hx)

theorem parsePoolLoop_depths (env : Env) (rest : List EvalString) :
    ∀ (v : EvalString) (d : Int),
      (∀ u ∈ v :: rest, 0 ≤ poolDepth (evalStr env u)) →
      parsePoolLoop env d ((v :: rest).map (fun u => ("depth", u)))
        = .ok (poolDepth (evalStr env (rest.getLastD v))) := by
  induction rest with
  | nil =>
    intro v d h
    have hv := h v (by simp)
    have hnn : ¬ poolDepth (evalStr env v) < 0 := by omega
    simp [parsePoolLoop, hnn, List.getLastD]
  | cons v2 rest ih =>
    intro v d h
    have hv := h v (by simp)
    have hnn : ¬ poolDepth (evalStr env v) < 0 := by omega
    have hstep := ih v2 (poolDepth (evalStr env v))
      (fun u hu => h u (List.mem_cons_of_mem v hu))
    rw [List.getLastD_cons]
    simp only [List.map, parsePoolLoop, reduceIte, hnn]
    simpa using hstep

theorem parsePoolLoop_neg (env : Env) (ws : List (String × EvalString)) :
    ∀ (us : List EvalString) (v : EvalString) (d : Int),
      (∀ u ∈ us, 0 ≤ poolDepth (evalStr env u)) → poolDepth (evalStr env v) < 0 →
      parsePoolLoop env d
          ((us.map (fun u => ("depth", u))) ++ ("depth", v) :: ws)
        = .error "invalid pool depth" := by
  intro us
  induction us with
  | nil =>
    intro v d _ hv
    simp [parsePoolLoop, hv]
  | cons u0 rest ih =>
    intro v d h hv
    have hu := h u0 (by simp)
    have hnn : ¬ poolDepth (evalStr env u0) < 0 := by omega
    simp only [List.map, List.cons_append, parsePoolLoop, reduceIte, hnn]
    simpa using ih v (poolDepth (evalStr env u0))
      (fun u hu2 => h u (List.mem_cons_of_mem u0 hu2)) hv

/-- C10: several indented `depth =` lines in one pool statement are
accepted without a duplicate-key error; each value must individually
convert (through `atol` and the 32-bit narrowing of line 116) to a
non-negative number, a negative one aborting at that line; and the pool
is registered with the narrowed value of the last line. -/
theorem c10_pool_last_depth_wins (st : State) (env : Env) (name : String)
    (h : (lookupPool st name).isSome = false) :
    (∀ (v : EvalString) (vs : List EvalString),
        (∀ u ∈ v :: vs, 0 ≤ poolDepth (evalStr env u)) →
        (ParsePool st env name ((v :: vs).map (fun u => ("depth", u))) none).ok
          = true
        ∧ (ParsePool st env name
              ((v :: vs).map (fun u => ("depth", u))) none).val.pools
          = st.pools ++ [(name, poolDepth (evalStr env (vs.getLastD v)))])
    ∧ (∀ (us : List EvalString) (v : EvalString)
          (ws : List (String × EvalString)),
        (∀ u ∈ us, 0 ≤ poolDepth (evalStr env u)) →
        poolDepth (evalStr env v) < 0 →
        (ParsePool st env name
            ((us.map (fun u => ("depth", u))) ++ ("depth", v) :: ws) none).ok
          = false
        ∧ (ParsePool st env name
            ((us.map (fun u => ("depth", u))) ++ ("depth", v) :: ws) none).err
          = "invalid pool depth") := by
  constructor
  · intro v vs hall
    have hloop := parsePoolLoop_depths env vs v (-1) hall
    have hlast := hall (vs.getLastD v) (getLastD_mem_cons vs v)
    have hnn : ¬ poolDepth (evalStr env (vs.getLastD v)) < 0 := by omega
    simp only [List.map_cons] at hloop
    rw [List.getLastD_eq_getLast?] at hnn hloop
    unfold ParsePool
    simp [h, hloop, hnn]
  · intro us v ws hall hv
    have hloop := parsePoolLoop_neg env ws us v (-1) hall hv
    unfold ParsePool
    simp [h, hloop]

/-- C10 witness: `depth = 3` then `depth = 5` registers depth 5. -/
theorem c10_pool_last_depth_wins_witness :
    (ParsePool ⟨[], [], []⟩ (.root [] [] "") "p"
        (([[Frag.lit "3"], [Frag.lit "5"]] : List EvalString).map
          (fun u => ("depth", u))) none).ok = true
    ∧ (ParsePool ⟨[], [], []⟩ (.root [] [] "") "p"
        (([[Frag.lit "3"], [Frag.lit "5"]] : List EvalString).map
          (fun u => ("depth", u))) none).val.pools
      = ([] : List (String × Int))
        ++ [("p", poolDepth (evalStr (.root [] [] "")
              (([[Frag.lit "5"]] : List EvalString).getLastD [Frag.lit "3"])))] :=
  (c10_pool_last_depth_wins ⟨[], [], []⟩ (.root [] [] "") "p" (by decide)).1
    [Frag.lit "3"] [[Frag.lit "5"]] (by decide)

/-- C2 counterexample: a build statement with zero explicit outputs but
one implicit output after the pipe parses successfully and links an
edge whose single output is implicit — the claim demands a parse
error for every statement with zero explicit outputs. -/
theorem c2_implicit_only_output_accepted :
    (ParseEdge ⟨.actWarn, .actWarn⟩ false ⟨[], [], []⟩
        (.root [] [⟨"r", [("command", [Frag.lit "cc"])]⟩] "")
        ⟨⟨[], none⟩, true, ⟨[[Frag.lit "out1"]], none⟩, true, true, "r",
         ⟨[], none⟩, false, ⟨[], none⟩, false, ⟨[], none⟩, true, [], none⟩).ok
      = true
    ∧ (ParseEdge ⟨.actWarn, .actWarn⟩ false ⟨[], [], []⟩
        (.root [] [⟨"r", [("command", [Frag.lit "cc"])]⟩] "")
        ⟨⟨[], none⟩, true, ⟨[[Frag.lit "out1"]], none⟩, true, true, "r",
         ⟨[], none⟩, false, ⟨[], none⟩, false, ⟨[], none⟩, true, [], none⟩).state.edges
      = [⟨0, "r", "", ["out1"], 1, [], 0, 0, none⟩] := by
  constructor <;> rfl

/-- C2 (amended): the output-presence check of a build statement counts
explicit and implicit outputs together — the parse fails with the
expected-path error exactly in the zero-total case, while zero explicit
outputs alone (with an implicit output present) passes the check. -/
theorem c2_outputs_required_in_total (opts : Options) (quiet : Bool)
    (st : State) (env : Env) (sc : EdgeScript)
    (h1 : sc.outSec = ⟨[], none⟩)
    (h2 : sc.outPipe = false ∨ sc.ioutSec = ⟨[], none⟩) :
    (ParseEdge opts quiet st env sc).ok = false
    ∧ (ParseEdge opts quiet st env sc).err = "expected path" := by
  rcases h2 with h2 | h2
  · simp [ParseEdge, parseEdgeAfterOuts, h1, h2]
  · cases hp : sc.outPipe <;>
      simp [ParseEdge, parseEdgeAfterOuts, h1, h2, hp]

/-- C2 witness for the amended claim: a build statement with no outputs
at all fails with the expected-path error. -/
theorem c2_outputs_required_in_total_witness :
    (ParseEdge ⟨.actWarn, .actWarn⟩ false ⟨[], [], []⟩ (.root [] [] "")
        ⟨⟨[], none⟩, false, ⟨[], none⟩, true, true, "r",
         ⟨[], none⟩, false, ⟨[], none⟩, false, ⟨[], none⟩, true, [], none⟩).ok
      = false
    ∧ (ParseEdge ⟨.actWarn, .actWarn⟩ false ⟨[], [], []⟩ (.root [] [] "")
        ⟨⟨[], none⟩, false, ⟨[], none⟩, true, true, "r",
         ⟨[], none⟩, false, ⟨[], none⟩, false, ⟨[], none⟩, true, [], none⟩).err
      = "expected path" :=
  c2_outputs_required_in_total ⟨.actWarn, .actWarn⟩ false ⟨[], [], []⟩
    (.root [] [] "")
    ⟨⟨[], none⟩, false, ⟨[], none⟩, true, true, "r",
     ⟨[], none⟩, false, ⟨[], none⟩, false, ⟨[], none⟩, true, [], none⟩
    rfl (Or.inl rfl)

/-- C3 is contradicted by the code: a lexical error raised while
reading a path in the implicit-outputs list (line 232) or the
implicit-inputs list (line 270) hits `return err;`, which converts the
non-null error pointer to bool — `ParseEdge` reports success with the
error message merely recorded, the statement loop carries on, and the
whole parse returns success instead of aborting; every other path
section correctly returns false. -/
theorem c3_lex_error_in_implicit_sections_swallowed :
    (ParseEdge ⟨.actWarn, .actWarn⟩ false ⟨[], [], []⟩
        (.root [] [⟨"r", [("command", [Frag.lit "cc"])]⟩] "")
        ⟨⟨[[Frag.lit "out1"]], none⟩, true, ⟨[], some "bad $ escape"⟩,
         true, true, "r",
         ⟨[], none⟩, false, ⟨[], none⟩, false, ⟨[], none⟩, true, [], none⟩).ok
      = true
    ∧ (ParseEdge ⟨.actWarn, .actWarn⟩ false ⟨[], [], []⟩
        (.root [] [⟨"r", [("command", [Frag.lit "cc"])]⟩] "")
        ⟨⟨[[Frag.lit "out1"]], none⟩, true, ⟨[], some "bad $ escape"⟩,
         true, true, "r",
         ⟨[], none⟩, false, ⟨[], none⟩, false, ⟨[], none⟩, true, [], none⟩).err
      = "bad $ escape"
    ∧ (ParseEdge ⟨.actWarn, .actWarn⟩ false ⟨[], [], []⟩
        (.root [] [⟨"r", [("command", [Frag.lit "cc"])]⟩] "")
        ⟨⟨[[Frag.lit "out1"]], none⟩, false, ⟨[], none⟩, true, true, "r",
         ⟨[], none⟩, true, ⟨[], some "bad $ escape"⟩, false, ⟨[], none⟩,
         true, [], none⟩).ok
      = true
    ∧ parseLoop ⟨.actWarn, .actWarn⟩ false (fun _ => true) ⟨[], [], []⟩
        (.root [] [⟨"r", [("command", [Frag.lit "cc"])]⟩] "") []
        [.build ⟨⟨[[Frag.lit "out1"]], none⟩, true, ⟨[], some "bad $ escape"⟩,
          true, true, "r",
          ⟨[], none⟩, false, ⟨[], none⟩, false, ⟨[], none⟩, true, [], none⟩]
      = .ok ⟨[], [], []⟩
          (.root [] [⟨"r", [("command", [Frag.lit "cc"])]⟩] "") [] := by
  exact ⟨rfl, rfl, rfl, rfl⟩

theorem parseLoop_append (opts : Options) (quiet : Bool)
    (compat : String → Bool) (xs : List MStmt) :
    ∀ (ys : List MStmt) (st : State) (env : Env) (warns : List String),
      parseLoop opts quiet compat st env warns (xs ++ ys)
        = match parseLoop opts quiet compat st env warns xs with
          | .ok st1 env1 w1 => parseLoop opts quiet compat st1 env1 w1 ys
          | .fail st1 env1 e w1 => .fail st1 env1 e w1
          | .versionFatal st1 env1 m w1 => .versionFatal st1 env1 m w1 := by
  induction xs with
  | nil => intro ys st env warns; rfl
  | cons s rest ih =>
    intro ys st env warns
    cases s with
    | pool name lets letsErr =>
      cases hok : (ParsePool st env name lets letsErr).ok <;>
        simp [parseLoop, hok, ih]
    | rulestmt name lets letsErr =>
      cases hok : (ParseRule env name lets letsErr).ok <;>
        simp [parseLoop, hok, ih]
    | binding name value =>
      cases hv : (name = "ninja_required_version"
          && !compat (evalStr env value)) <;>
        simp [parseLoop, hv, ih]
    | build sc =>
      cases hok : (ParseEdge opts quiet st env sc).ok <;>
        simp [parseLoop, hok, ih]
    | lexErrorTok msg => simp [parseLoop]
    | badToken tok => simp [parseLoop]

/-- C8: a top-level `ninja_required_version` binding triggers the
version check before the binding is stored and before any later
statement is read — when the preceding statements parse cleanly and the
evaluated value is incompatible, the parse fails with the version error
at that point, the scope still lacks the binding, and the result is the
same whatever the remaining statements (even syntax errors) contain. -/
theorem c8_version_checked_before_store_and_rest (opts : Options)
    (quiet : Bool) (compat : String → Bool) (st : State) (env : Env)
    (warns : List String) (pre suffix : List MStmt) (v : EvalString)
    (st1 : State) (env1 : Env) (w1 : List String)
    (hpre : parseLoop opts quiet compat st env warns pre = .ok st1 env1 w1)
    (hbad : compat (evalStr env1 v) = false) :
    parseLoop opts quiet compat st env warns
        (pre ++ .binding "ninja_required_version" v :: suffix)
      = .versionFatal st1 env1
          ("ninja version incompatible: " ++ evalStr env1 v) w1 := by
  rw [parseLoop_append opts quiet compat pre
      (.binding "ninja_required_version" v :: suffix) st env warns, hpre]
  simp [parseLoop, hbad]

/-- C8 witness: an incompatible required version fails although the
next line is a syntax error. -/
theorem c8_version_checked_witness :
    parseLoop ⟨.actWarn, .actWarn⟩ false (fun _ => false) ⟨[], [], []⟩
        (.root [] [] "") []
        ([] ++ .binding "ninja_required_version" [Frag.lit "99.0"]
          :: [.lexErrorTok "lexing error"])
      = .versionFatal ⟨[], [], []⟩ (.root [] [] "")
          ("ninja version incompatible: "
            ++ evalStr (.root [] [] "") [Frag.lit "99.0"]) [] :=
  c8_version_checked_before_store_and_rest ⟨.actWarn, .actWarn⟩ false
    (fun _ => false) ⟨[], [], []⟩ (.root [] [] "") [] []
    [.lexErrorTok "lexing error"] [Frag.lit "99.0"]
    ⟨[], [], []⟩ (.root [] [] "") [] rfl rfl

theorem evalStr_lit (env : Env) (s : String) : evalStr env [Frag.lit s] = s := by
  simp [evalStr]

theorem map_evalStr_lit (env : Env) (l : List String) :
    (l.map (fun s => [Frag.lit s])).map (evalStr env) = l := by
  induction l with
  | nil => rfl
  | cons a l ih => simp [evalStr_lit, ih]

theorem hasProducer_getNode (st : State) (p q : String) :
    hasProducer (getNode st q) p = hasProducer st p := by
  unfold getNode
  by_cases h : (lookupNode st q).isSome
  · simp [h]
  · simp only [h, Bool.false_eq_true, reduceIte]
    unfold hasProducer nodeProducer lookupNode
    simp only [List.find?_append]
    cases hf : st.nodes.find? (fun n => n.path = p) with
    | some n => simp
    | none =>
      simp only [Option.none_or]
      by_cases hqp : q = p
      · subst hqp
        simp [List.find?]
      · simp [List.find?, hqp]

theorem find?_map_producer_ne (l : List NodeData) (p q : String) (eid : Nat)
    (h : p ≠ q) :
    (l.map (fun n =>
        if n.path = q then { n with inEdge := some eid } else n)).find?
      (fun m => m.path = p) = l.find? (fun m => m.path = p) := by
  induction l with
  | nil => rfl
  | cons a l ih =>
    by_cases ha : a.path = q
    · have hap : ¬ a.path = p := by rw [ha]; exact fun hc => h hc.symm
      rw [List.map_cons, if_pos ha]
      rw [List.find?_cons_of_neg _ (by simpa using hap),
          List.find?_cons_of_neg _ (by simpa using hap)]
      exact ih
    · rw [List.map_cons, if_neg ha]
      by_cases hap : a.path = p
      · rw [List.find?_cons_of_pos _ (by simpa using hap),
            List.find?_cons_of_pos _ (by simpa using hap)]
      · rw [List.find?_cons_of_neg _ (by simpa using hap),
            List.find?_cons_of_neg _ (by simpa using hap)]
        exact ih

theorem hasProducer_setProducer_ne (st : State) (p q : String) (eid : Nat)
    (h : p ≠ q) :
    hasProducer (setProducer st q eid) p = hasProducer st p := by
  unfold hasProducer nodeProducer lookupNode setProducer
  rw [find?_map_producer_ne st.nodes p q eid h]

theorem addOutLoop_edges (dupe : DupeAction) (quiet : Bool) (eid : Nat) :
    ∀ (l : List String) (st : State) (acc : List String) (iouts : Nat)
      (warns : List String),
      (addOutLoop dupe quiet eid st acc iouts warns l).state.edges = st.edges := by
  intro l
  induction l with
  | nil => intro st acc iouts warns; rfl
  | cons p rest ih =>
    intro st acc iouts warns
    unfold addOutLoop canonicalizePath
    by_cases hp : p = ""
    · simp [hp]
    · simp only [hp, reduceIte]
      have hedge : (getNode st p).edges = st.edges := by
        unfold getNode
        by_cases hl : (lookupNode st p).isSome <;> simp [hl]
      by_cases hprod : hasProducer (getNode st p) p = true
      · cases dupe with
        | actError => simp [hprod, hedge]
        | actWarn => simp [hprod, ih, hedge]
      · have hprod2 : hasProducer (getNode st p) p = false := by
          simpa using hprod
        have hsp : (setProducer (getNode st p) p eid).edges = st.edges := by
          unfold setProducer
          simp [hedge]
        simp [hprod2, ih, hsp]

theorem addOutLoop_warn_spec (quiet : Bool) (eid : Nat) (st0 : State) :
    ∀ (l : List String) (st : State) (acc : List String) (iouts : Nat)
      (warns : List String),
      l.Nodup → (∀ q ∈ l, q ≠ "") →
      (∀ q ∈ l, hasProducer st q = hasProducer st0 q) →
      (addOutLoop .actWarn quiet eid st acc iouts warns l).ok = true
      ∧ (addOutLoop .actWarn quiet eid st acc iouts warns l).outsAcc
        = acc ++ l.filter (fun q => !hasProducer st0 q)
      ∧ (addOutLoop .actWarn quiet eid st acc iouts warns l).iouts
        = iouts - ((l.drop (l.length - iouts)).filter
            (fun q => hasProducer st0 q)).length := by
  intro l
  induction l with
  | nil =>
    intro st acc iouts warns _ _ _
    simp [addOutLoop]
  | cons p rest ih =>
    intro st acc iouts warns hnd hne hpres
    have hp : p ≠ "" := hne p (by simp)
    have hpe : hasProducer (getNode st p) p = hasProducer st0 p := by
      rw [hasProducer_getNode]; exact hpres p (by simp)
    have hnd2 : rest.Nodup := (List.nodup_cons.mp hnd).2
    have hpmem : p ∉ rest := (List.nodup_cons.mp hnd).1
    have hne2 : ∀ q ∈ rest, q ≠ "" :=
      fun q hq => hne q (List.mem_cons_of_mem p hq)
    unfold addOutLoop canonicalizePath
    simp only [hp, reduceIte]
    by_cases hprod : hasProducer st0 p = true
    · rw [hpe, hprod]
      simp only [reduceIte]
      have hpres2 : ∀ q ∈ rest, hasProducer (getNode st p) q
          = hasProducer st0 q := by
        intro q hq
        rw [hasProducer_getNode]
        exact hpres q (List.mem_cons_of_mem p hq)
      by_cases hcnt : rest.length + 1 ≤ iouts
      · have hih := ih (getNode st p) acc (iouts - 1)
          (if quiet then warns else warns ++ [dupWarnMsg p]) hnd2 hne2 hpres2
        simp only [hcnt, reduceIte]
        refine ⟨hih.1, ?_, ?_⟩
        · rw [hih.2.1]
          simp [List.filter, hprod]
        · rw [hih.2.2]
          have hz : rest.length - (iouts - 1) = 0 := by omega
          have hz2 : (p :: rest).length - iouts = 0 := by simp; omega
          rw [hz, hz2]
          simp only [List.drop_zero]
          rw [List.filter_cons_of_pos (by simp [hprod])]
          simp only [List.length_cons]
          omega
      · have hih := ih (getNode st p) acc iouts
          (if quiet then warns else warns ++ [dupWarnMsg p]) hnd2 hne2 hpres2
        simp only [hcnt, reduceIte]
        refine ⟨hih.1, ?_, ?_⟩
        · rw [hih.2.1]
          simp [List.filter, hprod]
        · rw [hih.2.2]
          have heq : (p :: rest).length - iouts
              = (rest.length - iouts) + 1 := by simp; omega
          rw [heq, List.drop_succ_cons]
    · have hprod2 : hasProducer st0 p = false := by simpa using hprod
      rw [hpe, hprod2]
      simp only [Bool.false_eq_true, reduceIte]
      have hpres2 : ∀ q ∈ rest,
          hasProducer (setProducer (getNode st p) p eid) q
            = hasProducer st0 q := by
        intro q hq
        have hqp : q ≠ p := fun hc => hpmem (hc ▸ hq)
        rw [hasProducer_setProducer_ne _ _ _ _ hqp, hasProducer_getNode]
        exact hpres q (List.mem_cons_of_mem p hq)
      have hih := ih (setProducer (getNode st p) p eid) (acc ++ [p]) iouts
        warns hnd2 hne2 hpres2
      refine ⟨hih.1, ?_, ?_⟩
      · rw [hih.2.1]
        rw [List.filter_cons_of_pos (by simp [hprod2])]
        simp
      · rw [hih.2.2]
        by_cases hcnt : rest.length + 1 ≤ iouts
        · have hz : rest.length - iouts = 0 := by omega
          have hz2 : (p :: rest).length - iouts = 0 := by simp; omega
          rw [hz, hz2]
          simp only [List.drop_zero]
          rw [List.filter_cons_of_neg (by simp [hprod2])]
        · have heq : (p :: rest).length - iouts
              = (rest.length - iouts) + 1 := by simp; omega
          rw [heq, List.drop_succ_cons]

theorem addOutLoop_error_spec (quiet : Bool) (eid : Nat) (st0 : State) :
    ∀ (l : List String) (st : State) (acc : List String) (iouts : Nat)
      (warns : List String),
      l.Nodup → (∀ q ∈ l, q ≠ "") →
      (∀ q ∈ l, hasProducer st q = hasProducer st0 q) →
      (∃ q ∈ l, hasProducer st0 q = true) →
      (addOutLoop .actError quiet eid st acc iouts warns l).ok = false
      ∧ ∃ q ∈ l, hasProducer st0 q = true
          ∧ (addOutLoop .actError quiet eid st acc iouts warns l).err
            = dupMsg q := by
  intro l
  induction l with
  | nil =>
    intro st acc iouts warns _ _ _ hex
    simp at hex
  | cons p rest ih =>
    intro st acc iouts warns hnd hne hpres hex
    have hp : p ≠ "" := hne p (by simp)
    have hpe : hasProducer (getNode st p) p = hasProducer st0 p := by
      rw [hasProducer_getNode]; exact hpres p (by simp)
    have hnd2 : rest.Nodup := (List.nodup_cons.mp hnd).2
    have hpmem : p ∉ rest := (List.nodup_cons.mp hnd).1
    have hne2 : ∀ q ∈ rest, q ≠ "" :=
      fun q hq => hne q (List.mem_cons_of_mem p hq)
    unfold addOutLoop canonicalizePath
    simp only [hp, reduceIte]
    by_cases hprod : hasProducer st0 p = true
    · rw [hpe, hprod]
      simp only [reduceIte]
      exact ⟨by simp, p, by simp, hprod, by simp⟩
    · have hprod2 : hasProducer st0 p = false := by simpa using hprod
      rw [hpe, hprod2]
      simp only [Bool.false_eq_true, reduceIte]
      have hpres2 : ∀ q ∈ rest,
          hasProducer (setProducer (getNode st p) p eid) q
            = hasProducer st0 q := by
        intro q hq
        have hqp : q ≠ p := fun hc => hpmem (hc ▸ hq)
        rw [hasProducer_setProducer_ne _ _ _ _ hqp, hasProducer_getNode]
        exact hpres q (List.mem_cons_of_mem p hq)
      have hex2 : ∃ q ∈ rest, hasProducer st0 q = true := by
        obtain ⟨q, hq, hqp⟩ := hex
        cases hq with
        | head => rw [hqp] at hprod2; simp at hprod2
        | tail _ hq => exact ⟨q, hq, hqp⟩
      obtain ⟨hok, q, hq, hqp, herr⟩ := ih
        (setProducer (getNode st p) p eid) (acc ++ [p]) iouts warns
        hnd2 hne2 hpres2 hex2
      exact ⟨hok, q, List.mem_cons_of_mem p hq, hqp, herr⟩

theorem phonyCycleFilter_no_inputs (ph : PhonyAction) (quiet : Bool)
    (e : EdgeData) (w : List String) (h : e.inputs = []) :
    phonyCycleFilter ph quiet e w = (e, w) := by
  unfold phonyCycleFilter
  by_cases hc : (ph = .actWarn && maybePhonycycleDiagnostic e) = true
  · rw [if_pos hc]
    cases ho : e.outputs with
    | nil => rfl
    | cons o rest => simp [h]
  · rw [if_neg hc]

/-- C1: when an earlier build statement already produces one of a new
build statement's canonical output paths, the error policy fails the
parse with the duplicate-output message, while the warn policy drops
every already-produced output from the new edge (decrementing the
implicit-output count for each implicit one dropped), and if that
leaves the new edge without outputs the edge is never linked into the
store and the statement still succeeds. -/
theorem c1_duplicate_outputs (dupe : DupeAction) (phony : PhonyAction)
    (quiet : Bool) (st : State) (env : Env) (rname : String)
    (rule : RuleData) (exp imp : List String) (p : String)
    (hrule : env.lookupRule rname = some rule)
    (hpool : getBinding env rule "pool" = "")
    (hdeps : getBinding env rule "deps" = "")
    (hdyn : getBinding env rule "dyndep" = "")
    (hnd : (exp ++ imp).Nodup)
    (hne : ∀ q ∈ exp ++ imp, q ≠ "")
    (hp : p ∈ exp ++ imp)
    (hprod : hasProducer st p = true)
    (r : ERes)
    (hr : r = ParseEdge ⟨dupe, phony⟩ quiet st env
      ⟨⟨exp.map (fun s => [Frag.lit s]), none⟩, true,
       ⟨imp.map (fun s => [Frag.lit s]), none⟩, true, true, rname,
       ⟨[], none⟩, false, ⟨[], none⟩, false, ⟨[], none⟩, true, [], none⟩) :
    (dupe = .actError →
        r.ok = false
        ∧ ∃ q ∈ exp ++ imp, hasProducer st q = true ∧ r.err = dupMsg q)
    ∧ (dupe = .actWarn →
        r.ok = true
        ∧ ((∀ q ∈ exp ++ imp, hasProducer st q = true) →
            r.state.edges = st.edges)
        ∧ (¬ (∀ q ∈ exp ++ imp, hasProducer st q = true) →
            ∃ e, r.state.edges = st.edges ++ [e]
              ∧ e.outputs = (exp ++ imp).filter (fun q => !hasProducer st q)
              ∧ p ∉ e.outputs
              ∧ e.implicitOuts
                = imp.length
                  - (imp.filter (fun q => hasProducer st q)).length)) := by
  subst hr
  have hmap : ((exp.map (fun s => [Frag.lit s])
      ++ imp.map (fun s => [Frag.lit s])).map (evalStr env)) = exp ++ imp := by
    rw [List.map_append, map_evalStr_lit, map_evalStr_lit]
  have hlen : (imp.map (fun s => [Frag.lit s])).length = imp.length :=
    List.length_map _ _
  have hnil : exp ++ imp ≠ [] := List.ne_nil_of_mem hp
  have hne0 : (exp.map (fun s => [Frag.lit s])
      ++ imp.map (fun s => [Frag.lit s])).isEmpty = false := by
    rw [← List.map_append]
    cases hc : (exp ++ imp).map (fun s => [Frag.lit s]) with
    | nil => exact absurd (List.map_eq_nil_iff.mp hc) hnil
    | cons a l => rfl
  constructor
  · rintro rfl
    obtain ⟨hok, q, hq, hqp, herr⟩ := addOutLoop_error_spec quiet
      st.edges.length st (exp ++ imp) st [] imp.length [] hnd hne
      (fun _ _ => rfl) ⟨p, hp, hprod⟩
    simp only [ParseEdge, parseEdgeAfterOuts, parseEdgeIns, parseEdgeTail,
      hne0, hrule, hpool, hdeps, hdyn, hmap, hlen, Bool.not_true,
      Bool.false_eq_true, reduceIte, List.isEmpty_nil, List.map_nil,
      ne_eq, not_true_eq_false, Bool.false_and, decide_False]
    rw [hok]
    simp only [Bool.not_false, reduceIte]
    exact ⟨by simp, q, hq, hqp, herr⟩
  · rintro rfl
    obtain ⟨hok, hacc, hiouts⟩ := addOutLoop_warn_spec quiet
      st.edges.length st (exp ++ imp) st [] imp.length [] hnd hne
      (fun _ _ => rfl)
    have hedges := addOutLoop_edges .actWarn quiet st.edges.length
      (exp ++ imp) st [] imp.length []
    simp only [ParseEdge, parseEdgeAfterOuts, parseEdgeIns, parseEdgeTail,
      hne0, hrule, hpool, hdeps, hdyn, hmap, hlen, Bool.not_true,
      Bool.false_eq_true, reduceIte, List.isEmpty_nil, List.map_nil,
      ne_eq, not_true_eq_false, Bool.false_and, decide_False]
    rw [hok]
    simp only [Bool.not_true, Bool.false_eq_true, reduceIte]
    by_cases hall : ∀ q ∈ exp ++ imp, hasProducer st q = true
    · have hfil : (exp ++ imp).filter (fun q => !hasProducer st q) = [] := by
        rw [List.filter_eq_nil_iff]
        intro a ha
        simp [hall a ha]
      have hacc2 : (addOutLoop .actWarn quiet st.edges.length st []
          imp.length [] (exp ++ imp)).outsAcc = [] := by
        rw [hacc, hfil]; rfl
      rw [hacc2]
      simp only [List.isEmpty_nil, reduceIte]
      exact ⟨by simp, fun _ => hedges, fun hc => absurd hall hc⟩
    · have hex : ∃ q ∈ exp ++ imp, hasProducer st q = false := by
        rcases Classical.not_forall.mp hall with ⟨q, hq⟩
        rcases Classical.not_imp.mp hq with ⟨hqm, hqp⟩
        exact ⟨q, hqm, by simpa using hqp⟩
      obtain ⟨q0, hq0m, hq0p⟩ := hex
      have hfilne : (exp ++ imp).filter (fun q => !hasProducer st q) ≠ [] := by
        intro hc
        rw [List.filter_eq_nil_iff] at hc
        exact hc q0 hq0m (by simp [hq0p])
      have hemp : (addOutLoop .actWarn quiet st.edges.length st []
          imp.length [] (exp ++ imp)).outsAcc.isEmpty = false := by
        rw [hacc, List.nil_append]
        cases hc : (exp ++ imp).filter (fun q => !hasProducer st q) with
        | nil => exact absurd hc hfilne
        | cons a l => rfl
      rw [hemp]
      simp only [Bool.false_eq_true, reduceIte, addInLoop, List.map_nil,
        Bool.not_true, dyndepPhase, appendEdge, hdeps, hdyn, ne_eq,
        not_true_eq_false, Bool.false_and, decide_False,
        phonyCycleFilter_no_inputs]
      refine ⟨by simp, fun hc => absurd hc (by simpa using hall), fun _ => ?_⟩
      refine ⟨_, by rw [hedges], ?_, ?_, ?_⟩
      · rw [hacc, List.nil_append]
      · intro hmem
        rw [hacc, List.nil_append] at hmem
        have := (List.mem_filter.mp hmem).2
        simp [hprod] at this
      · rw [hiouts]
        have harith : (exp ++ imp).length - imp.length = exp.length := by
          simp [List.length_append]
        rw [harith, List.drop_left]

/-- C1 witness: a store already producing `a` meets a build statement
with explicit output `a` and implicit output `b` under the warn
policy. -/
theorem c1_duplicate_outputs_witness :
    (DupeAction.actWarn = DupeAction.actError →
        (ParseEdge ⟨.actWarn, .actWarn⟩ false
            ⟨[⟨"a", some 0, false⟩], [⟨0, "r", "", ["a"], 0, [], 0, 0, none⟩], []⟩
            (.root [] [⟨"r", [("command", [Frag.lit "cc"])]⟩] "")
            ⟨⟨["a"].map (fun s => [Frag.lit s]), none⟩, true,
             ⟨["b"].map (fun s => [Frag.lit s]), none⟩, true, true, "r",
             ⟨[], none⟩, false, ⟨[], none⟩, false, ⟨[], none⟩, true, [], none⟩).ok
          = false
        ∧ ∃ q ∈ ["a"] ++ ["b"],
            hasProducer ⟨[⟨"a", some 0, false⟩],
              [⟨0, "r", "", ["a"], 0, [], 0, 0, none⟩], []⟩ q = true
            ∧ (ParseEdge ⟨.actWarn, .actWarn⟩ false
                ⟨[⟨"a", some 0, false⟩],
                 [⟨0, "r", "", ["a"], 0, [], 0, 0, none⟩], []⟩
                (.root [] [⟨"r", [("command", [Frag.lit "cc"])]⟩] "")
                ⟨⟨["a"].map (fun s => [Frag.lit s]), none⟩, true,
                 ⟨["b"].map (fun s => [Frag.lit s]), none⟩, true, true, "r",
                 ⟨[], none⟩, false, ⟨[], none⟩, false, ⟨[], none⟩,
                 true, [], none⟩).err = dupMsg q)
    ∧ (DupeAction.actWarn = DupeAction.actWarn →
        (ParseEdge ⟨.actWarn, .actWarn⟩ false
            ⟨[⟨"a", some 0, false⟩], [⟨0, "r", "", ["a"], 0, [], 0, 0, none⟩], []⟩
            (.root [] [⟨"r", [("command", [Frag.lit "cc"])]⟩] "")
            ⟨⟨["a"].map (fun s => [Frag.lit s]), none⟩, true,
             ⟨["b"].map (fun s => [Frag.lit s]), none⟩, true, true, "r",
             ⟨[], none⟩, false, ⟨[], none⟩, false, ⟨[], none⟩, true, [], none⟩).ok
          = true
        ∧ ((∀ q ∈ ["a"] ++ ["b"],
              hasProducer ⟨[⟨"a", some 0, false⟩],
                [⟨0, "r", "", ["a"], 0, [], 0, 0, none⟩], []⟩ q = true) →
            (ParseEdge ⟨.actWarn, .actWarn⟩ false
                ⟨[⟨"a", some 0, false⟩],
                 [⟨0, "r", "", ["a"], 0, [], 0, 0, none⟩], []⟩
                (.root [] [⟨"r", [("command", [Frag.lit "cc"])]⟩] "")
                ⟨⟨["a"].map (fun s => [Frag.lit s]), none⟩, true,
                 ⟨["b"].map (fun s => [Frag.lit s]), none⟩, true, true, "r",
                 ⟨[], none⟩, false, ⟨[], none⟩, false, ⟨[], none⟩,
                 true, [], none⟩).state.edges
              = (⟨[⟨"a", some 0, false⟩],
                  [⟨0, "r", "", ["a"], 0, [], 0, 0, none⟩], []⟩ : State).edges)
        ∧ (¬ (∀ q ∈ ["a"] ++ ["b"],
              hasProducer ⟨[⟨"a", some 0, false⟩],
                [⟨0, "r", "", ["a"], 0, [], 0, 0, none⟩], []⟩ q = true) →
            ∃ e, (ParseEdge ⟨.actWarn, .actWarn⟩ false
                ⟨[⟨"a", some 0, false⟩],
                 [⟨0, "r", "", ["a"], 0, [], 0, 0, none⟩], []⟩
                (.root [] [⟨"r", [("command", [Frag.lit "cc"])]⟩] "")
                ⟨⟨["a"].map (fun s => [Frag.lit s]), none⟩, true,
                 ⟨["b"].map (fun s => [Frag.lit s]), none⟩, true, true, "r",
                 ⟨[], none⟩, false, ⟨[], none⟩, false, ⟨[], none⟩,
                 true, [], none⟩).state.edges
                = (⟨[⟨"a", some 0, false⟩],
                    [⟨0, "r", "", ["a"], 0, [], 0, 0, none⟩], []⟩ : State).edges
                  ++ [e]
              ∧ e.outputs = (["a"] ++ ["b"]).filter
                  (fun q => !hasProducer ⟨[⟨"a", some 0, false⟩],
                    [⟨0, "r", "", ["a"], 0, [], 0, 0, none⟩], []⟩ q)
              ∧ "a" ∉ e.outputs
              ∧ e.implicitOuts
                = ["b"].length
                  - (["b"].filter (fun q => hasProducer ⟨[⟨"a", some 0, false⟩],
                      [⟨0, "r", "", ["a"], 0, [], 0, 0, none⟩], []⟩ q)).length)) :=
  c1_duplicate_outputs .actWarn .actWarn false
    ⟨[⟨"a", some 0, false⟩], [⟨0, "r", "", ["a"], 0, [], 0, 0, none⟩], []⟩
    (.root [] [⟨"r", [("command", [Frag.lit "cc"])]⟩] "") "r"
    ⟨"r", [("command", [Frag.lit "cc"])]⟩ ["a"] ["b"] "a"
    (by decide) (by decide) (by decide) (by decide) (by decide) (by decide)
    (by decide) (by decide) _ rfl

example : atol "42" = 42 := by decide
example : poolDepth "3000000000" = -1294967296 := by decide
example : poolDepth "5000000000" = 705032704 := by decide
example : poolDepth "abc" = 0 := by decide

theorem string_append_ne_empty (s t : String) (h : t ≠ "") : s ++ t ≠ "" := by
  intro hc
  apply h
  have hl := congrArg String.length hc
  simp only [String.length_append] at hl
  have h0 : ("" : String).length = 0 := rfl
  rw [h0] at hl
  have ht : t.length = 0 := by omega
  cases t with
  | mk td =>
    cases td with
    | nil => rfl
    | cons c cs =>
      have : (String.mk (c :: cs)).length = cs.length + 1 := rfl
      omega

theorem lookupNode_getNode_self (st : State) (p : String) :
    ∃ n, lookupNode (getNode st p) p = some n ∧ n.path = p := by
  by_cases h : (lookupNode st p).isSome
  · obtain ⟨n, hm⟩ := Option.isSome_iff_exists.mp h
    have hg : getNode st p = st := by simp [getNode, h]
    have hm2 : st.nodes.find? (fun m => m.path = p) = some n := hm
    have hp := List.find?_some hm2
    exact ⟨n, by rw [hg]; exact hm, by simpa using hp⟩
  · have hg : getNode st p
        = { st with nodes := st.nodes ++ [⟨p, none, false⟩] } := by
      simp [getNode, h]
    rw [Option.not_isSome_iff_eq_none] at h
    refine ⟨⟨p, none, false⟩, ?_, rfl⟩
    rw [hg]
    unfold lookupNode at h ⊢
    simp only [List.find?_append, h, Option.none_or]
    simp [List.find?]

theorem find?_map_setPending (l : List NodeData) (p : String)
    (h : ∃ n, l.find? (fun m => m.path = p) = some n) :
    ((l.map (fun n =>
        if n.path = p then { n with dyndepPending := true } else n)).find?
      (fun m => m.path = p)).map (fun n => n.dyndepPending) = some true := by
  induction l with
  | nil =>
    obtain ⟨n, hn⟩ := h
    simp [List.find?] at hn
  | cons a l ih =>
    by_cases ha : a.path = p
    · simp [List.find?, ha]
    · obtain ⟨n, hn⟩ := h
      rw [List.find?_cons_of_neg _ (by simpa using ha)] at hn
      have := ih ⟨n, hn⟩
      simpa [List.find?, ha] using this

theorem lookupNode_setDyndepPending_self (st : State) (p : String)
    (h : ∃ n, lookupNode st p = some n ∧ n.path = p) :
    nodePending (setDyndepPending st p) p = true := by
  obtain ⟨n, hn, -⟩ := h
  have h2 := find?_map_setPending st.nodes p ⟨n, hn⟩
  unfold nodePending setDyndepPending lookupNode
  simp only []
  rw [h2]
  rfl

/-- C4: under the warn-and-strip self-referential-edge policy, for a
single-output edge whose sole output also appears among its inputs,
every occurrence of the output is removed from the input list and a
warning is emitted unless warnings are suppressed — whatever rule the
edge uses. -/
theorem c4_phony_selfref_strip (quiet : Bool) (e : EdgeData) (o : String)
    (warns : List String) (ho : e.outputs = [o]) (hin : o ∈ e.inputs) :
    (phonyCycleFilter .actWarn quiet e warns).1.inputs
        = e.inputs.filter (fun q => q ≠ o)
    ∧ o ∉ (phonyCycleFilter .actWarn quiet e warns).1.inputs
    ∧ (quiet = false →
        (phonyCycleFilter .actWarn quiet e warns).2 = warns ++ [phonyWarnMsg o]) := by
  have hd : maybePhonycycleDiagnostic e = true := by
    simp [maybePhonycycleDiagnostic, ho]
  have hc : e.inputs.contains o = true := by
    simpa [List.contains] using hin
  unfold phonyCycleFilter
  simp only [hd, ho, hc, Bool.and_true, if_true, reduceIte]
  refine ⟨rfl, ?_, ?_⟩
  · intro hmem
    have := (List.mem_filter.mp hmem).2
    simp at this
  · intro hq
    simp [hq]

/-- C4 witness. -/
theorem c4_phony_selfref_strip_witness :
    (phonyCycleFilter .actWarn false
        ⟨0, "cc", "", ["x"], 0, ["a", "x", "b", "x"], 0, 0, none⟩ []).1.inputs
      = ["a", "x", "b", "x"].filter (fun q => q ≠ "x")
    ∧ "x" ∉ (phonyCycleFilter .actWarn false
        ⟨0, "cc", "", ["x"], 0, ["a", "x", "b", "x"], 0, 0, none⟩ []).1.inputs
    ∧ (false = false →
        (phonyCycleFilter .actWarn false
          ⟨0, "cc", "", ["x"], 0, ["a", "x", "b", "x"], 0, 0, none⟩ []).2
        = [] ++ [phonyWarnMsg "x"]) :=
  c4_phony_selfref_strip false
    ⟨0, "cc", "", ["x"], 0, ["a", "x", "b", "x"], 0, 0, none⟩ "x" []
    (by decide) (by decide)

/-- C6: a non-empty dyndep binding is resolved against the scope
directory, canonicalized and interned; the node is marked
dyndep-pending; and the parse fails iff the node is not among the
declared inputs. -/
theorem c6_dyndep_checked (st : State) (env : Env) (rule : RuleData)
    (e : EdgeData) (h : getBinding env rule "dyndep" ≠ "") :
    nodePending (dyndepPhase st env rule e).state
        (applyChdir env (getBinding env rule "dyndep")) = true
    ∧ (dyndepPhase st env rule e).edge.dyndepNode
        = some (applyChdir env (getBinding env rule "dyndep"))
    ∧ ((dyndepPhase st env rule e).ok = true
        ↔ applyChdir env (getBinding env rule "dyndep") ∈ e.inputs)
    ∧ (applyChdir env (getBinding env rule "dyndep") ∉ e.inputs →
        (dyndepPhase st env rule e).ok = false
        ∧ (dyndepPhase st env rule e).err
          = "dyndep " ++ applyChdir env (getBinding env rule "dyndep")
            ++ " is not an input") := by
  have hne : applyChdir env (getBinding env rule "dyndep") ≠ "" :=
    string_append_ne_empty _ _ h
  unfold dyndepPhase
  simp only [if_neg h, canonicalizePath, if_neg hne]
  set d := applyChdir env (getBinding env rule "dyndep") with hd
  have hpend : nodePending (setDyndepPending (getNode st d) d) d = true :=
    lookupNode_setDyndepPending_self _ _ (lookupNode_getNode_self st d)
  by_cases hin : d ∈ e.inputs
  · simp [hin, hpend]
  · simp [hin, hpend]

/-- C6 witness. -/
theorem c6_dyndep_checked_witness :
    nodePending (dyndepPhase ⟨[], [], []⟩ (.child [("dyndep", "dd")] [] "" (.root [] [] "")) ⟨"r", []⟩
        ⟨0, "r", "", ["o"], 0, ["zz"], 0, 0, none⟩).state
        (applyChdir (.child [("dyndep", "dd")] [] "" (.root [] [] "")) (getBinding (.child [("dyndep", "dd")] [] "" (.root [] [] "")) ⟨"r", []⟩ "dyndep")) = true
    ∧ (dyndepPhase ⟨[], [], []⟩ (.child [("dyndep", "dd")] [] "" (.root [] [] "")) ⟨"r", []⟩
        ⟨0, "r", "", ["o"], 0, ["zz"], 0, 0, none⟩).edge.dyndepNode
        = some (applyChdir (.child [("dyndep", "dd")] [] "" (.root [] [] "")) (getBinding (.child [("dyndep", "dd")] [] "" (.root [] [] "")) ⟨"r", []⟩ "dyndep"))
    ∧ ((dyndepPhase ⟨[], [], []⟩ (.child [("dyndep", "dd")] [] "" (.root [] [] "")) ⟨"r", []⟩
        ⟨0, "r", "", ["o"], 0, ["zz"], 0, 0, none⟩).ok = true
        ↔ applyChdir (.child [("dyndep", "dd")] [] "" (.root [] [] "")) (getBinding (.child [("dyndep", "dd")] [] "" (.root [] [] "")) ⟨"r", []⟩ "dyndep") ∈ (["zz"] : List String))
    ∧ (applyChdir (.child [("dyndep", "dd")] [] "" (.root [] [] "")) (getBinding (.child [("dyndep", "dd")] [] "" (.root [] [] "")) ⟨"r", []⟩ "dyndep") ∉ (["zz"] : List String) →
        (dyndepPhase ⟨[], [], []⟩ (.child [("dyndep", "dd")] [] "" (.root [] [] "")) ⟨"r", []⟩
          ⟨0, "r", "", ["o"], 0, ["zz"], 0, 0, none⟩).ok = false
        ∧ (dyndepPhase ⟨[], [], []⟩ (.child [("dyndep", "dd")] [] "" (.root [] [] "")) ⟨"r", []⟩
          ⟨0, "r", "", ["o"], 0, ["zz"], 0, 0, none⟩).err
          = "dyndep " ++ applyChdir (.child [("dyndep", "dd")] [] "" (.root [] [] "")) (getBinding (.child [("dyndep", "dd")] [] "" (.root [] [] "")) ⟨"r", []⟩ "dyndep")
            ++ " is not an input") :=
  c6_dyndep_checked ⟨[], [], []⟩ (.child [("dyndep", "dd")] [] "" (.root [] [] ""))
    ⟨"r", []⟩ ⟨0, "r", "", ["o"], 0, ["zz"], 0, 0, none⟩ (by decide)
example : atol "abc" = 0 := by decide
example : atol "-3" = -3 := by decide
example : atol "  7x" = 7 := by decide
example : evalStr (.root [("a", "x")] [] "") [.lit "p/", .var "a"] = "p/x" := by decide
example : hasProducer ⟨[⟨"o", some 0, false⟩], [], []⟩ "o" = true := by decide
